import Mathlib

/-!
Verification development for the graph-app repository: a shallow embedding of
the adjacency-list graph ADT (`src/core/graph_tad.py`) and of the adjacency
matrix loader / degree calculator (`src/core/matrix_graph.py`), together with
theorems settling the specification claims about them.

Modelling conventions:
* Python `dict` (insertion-ordered, unique keys) becomes an association list
  `List (key × value)`; `d[k] = v` on a fresh key is an append, `del d[k]`
  a filter, and `list.remove(x)` is `List.erase` (first occurrence).
* A node identity (`T`, used as a string-like token) is `Option String`:
  `none` models Python `None`, `some s` a string identity.
* Exceptions become explicit error values (`GErr`); a mutating method of
  `GraphTAD` becomes a function `AdjList → ... → AdjList × Option GErr`
  returning the state at the moment of return/raise, so that partial
  mutation before a raise would be visible in the first component.
* File I/O is modelled by passing the file's lines (`List String`) to the
  loader; `FileNotFoundError` and OS-level read failures are out of scope.
-/

/-- Node identity as passed to `GraphTAD` methods: Python `None` or a string. -/
abbrev Ident := Option String

/-- Python `str(node)` for an identity: `str(None) = "None"`, strings unchanged. -/
def strIdent : Ident → String
  | none => "None"
  | some s => s

/-- Errors of `src/exceptions/graph_exceptions.py`, one constructor per
subclass of `GraphError` that the core raises.  Each carries the constructor
arguments that the source passes:
* `nodeErr message node_id last_error` models `NodeError(message, node_id, context)`,
  where of the free-form `context` dict only its `"last_error"` entry is
  modelled (as the inner error itself rather than its `str()`), because it is
  the only context entry whose content the code or spec depends on;
* `edgeErr` models `EdgeError(message, from_node, to_node, bidirectional)`;
* `invalidMatrixErr` models `InvalidMatrixError(message, matrix_size)`;
* `fileReadErr` models `FileReadError(message, filename)` (the `line_number`
  argument is never passed by the core). -/
inductive GErr where
  | nodeErr (message : String) (node_id : Option String) (last_error : Option GErr)
  | edgeErr (message : String) (from_node : String) (to_node : String) (bidirectional : Bool)
  | invalidMatrixErr (message : String) (matrix_size : Option Nat)
  | fileReadErr (message : String) (filename : String)
deriving Repr

/-- The `ErrorCode` enum member name attached by each subclass constructor. -/
def GErr.codeName : GErr → String
  | .nodeErr .. => "INVALID_NODE"
  | .edgeErr .. => "INVALID_EDGE"
  | .invalidMatrixErr .. => "INVALID_MATRIX"
  | .fileReadErr .. => "FILE_ERROR"

/-- The `message` attribute of the error. -/
def GErr.message : GErr → String
  | .nodeErr m .. => m
  | .edgeErr m .. => m
  | .invalidMatrixErr m _ => m
  | .fileReadErr m _ => m

/-- The `details` attribute, as computed by each subclass `__init__`:
`NodeError` uses `f"Node: {node_id}"` (the `, Context: {...}` suffix that
Python appends when a context dict is present is not rendered here — no
claim inspects the `str()` of a `NodeError`); `EdgeError` uses
`f"Edge: {from} -> {to}"` plus `" (bidirectional)"`; `InvalidMatrixError`
uses `f"Matrix size: {n}"` only when `matrix_size` is truthy (not `None`,
not `0`); `FileReadError` uses `f"File: {filename}"`. -/
def GErr.details : GErr → Option String
  | .nodeErr _ node_id _ => some ("Node: " ++ (node_id.getD "None"))
  | .edgeErr _ f t b => some ("Edge: " ++ f ++ " -> " ++ t ++ (if b then " (bidirectional)" else ""))
  | .invalidMatrixErr _ ms =>
      match ms with
      | some n => if n ≠ 0 then some ("Matrix size: " ++ toString n) else none
      | none => none
  | .fileReadErr _ fn => some ("File: " ++ fn)

/-- Python `str(e)` per `GraphError.__str__`: the message, a parenthesised
details suffix when `details` is truthy, and a `[CODE] ` prefix (every
subclass sets a code, so the prefix is always present). -/
def GErr.pyStr (e : GErr) : String :=
  "[" ++ e.codeName ++ "] " ++ e.message ++
    (match e.details with
     | some d => " (" ++ d ++ ")"
     | none => "")

/-! ## Matrix subsystem (`src/core/matrix_graph.py`) -/

/-- Python `repr` of a list of ints, as interpolated into the
`"Row {i} contains invalid values: {invalid_values}"` message. -/
def pyIntList (l : List Int) : String :=
  "[" ++ String.intercalate ", " (l.map toString) ++ "]"

/-- Row-by-row loop of `validate_matrix`: for each row, first the length
check against the total row count, then the cell-value check against
`{0, 1}`; the first offending row raises. -/
def validate_rows (size : Nat) : List (List Int) → Nat → Option GErr
  | [], _ => none
  | row :: rest, i =>
    let rowLen := row.length
    if rowLen ≠ size then
      some (.invalidMatrixErr s!"Row {i} has incorrect length ({rowLen} != {size})" (some size))
    else if ¬ (row.all (fun x => x == 0 || x == 1)) then
      let vals := pyIntList (row.filter (fun x => ¬ (x == 0 || x == 1)))
      some (.invalidMatrixErr s!"Row {i} contains invalid values: {vals}" (some size))
    else
      validate_rows size rest (i + 1)

/-- `validate_matrix(matrix)`: `InvalidMatrixError` on an empty matrix, a
row whose length differs from the row count, or a cell outside `{0,1}`;
`none` (normal return) otherwise.  The source's catch-all that re-wraps a
non-`InvalidMatrixError` exception is unreachable here: the checks raise
nothing else. -/
def validate_matrix (matrix : List (List Int)) : Option GErr :=
  if matrix.isEmpty then some (.invalidMatrixErr "Matrix cannot be empty" none)
  else validate_rows matrix.length matrix 0

/-- Decimal digit run of a Python `int()` literal (no sign). -/
def pyDigits? (s : List Char) : Option Nat :=
  match s with
  | [] => none
  | _ =>
    if s.all Char.isDigit then
      some (s.foldl (fun acc c => acc * 10 + (c.toNat - 48)) 0)
    else none

/-- Python `int(token)` on a whitespace-free token: an optional sign
followed by digits (digit-group underscores are not modelled; no input in
this code base uses them). -/
def pyInt? (s : String) : Option Int :=
  match s.data with
  | '-' :: rest => (pyDigits? rest).map (fun n => -(n : Int))
  | '+' :: rest => (pyDigits? rest).map (fun n => (n : Int))
  | l => (pyDigits? l).map (fun n => (n : Int))

/-- Python `not s.strip()`: after removing leading and trailing whitespace
the string is empty, i.e. every character is whitespace. -/
def pyIsBlank (s : String) : Bool := s.data.all Char.isWhitespace

/-- Character-level worker for Python `str.split()`: accumulate the current
token (reversed) and emit it at each whitespace run or at the end. -/
def splitWSAux : List Char → List Char → List String
  | [], acc => if acc.isEmpty then [] else [String.mk acc.reverse]
  | c :: rest, acc =>
    if c.isWhitespace then
      if acc.isEmpty then splitWSAux rest []
      else String.mk acc.reverse :: splitWSAux rest []
    else splitWSAux rest (c :: acc)

/-- Python `str.split()` with no arguments: split on whitespace runs,
dropping empty tokens. -/
def pySplit (s : String) : List String := splitWSAux s.data []

/-- `[int(x) for x in stripped_line.split()]`: all tokens parse, or the
comprehension raises `ValueError` (modelled as `none`). -/
def parse_tokens : List String → Option (List Int)
  | [] => some []
  | t :: rest =>
    match pyInt? t with
    | none => none
    | some v => (parse_tokens rest).map (fun r => v :: r)

/-- The line loop of `load_adjacency_matrix`: lines are enumerated from 1,
blank lines (after `strip`) are skipped, each remaining line is tokenized
and parsed; a `ValueError` becomes `FileReadError("Invalid value in line N", path)`.
Splitting the raw line stands in for `stripped_line.split()` — `split()`
with no arguments already discards surrounding whitespace, so the two
agree. -/
def parse_lines (file_path : String) : List String → Nat → Except GErr (List (List Int))
  | [], _ => .ok []
  | line :: rest, line_num =>
    if pyIsBlank line then parse_lines file_path rest (line_num + 1)
    else
      match parse_tokens (pySplit line) with
      | none => .error (.fileReadErr s!"Invalid value in line {line_num}" file_path)
      | some row => (parse_lines file_path rest (line_num + 1)).map (fun m => row :: m)

/-- `load_adjacency_matrix(file_path)` on a file whose lines are `lines`
(the file exists and reads without I/O error).  Faithful to the source's
exception handling: the whole body, *including* the final
`validate_matrix(matrix)` call, sits inside the outer `try`, whose
`except Exception as e` clause catches any `GraphError` raised within —
so both a parse `FileReadError` and a validation `InvalidMatrixError` are
re-wrapped as `FileReadError(f"Error reading file: {str(e)}", file_path)`. -/
def load_adjacency_matrix (file_path : String) (lines : List String) :
    Except GErr (List (List Int)) :=
  match parse_lines file_path lines 1 with
  | .error e => .error (.fileReadErr ("Error reading file: " ++ e.pyStr) file_path)
  | .ok matrix =>
    match validate_matrix matrix with
    | some e => .error (.fileReadErr ("Error reading file: " ++ e.pyStr) file_path)
    | none => .ok matrix

/-- Degree information per node, `DegreeInfo = Union[int, Dict[str, int]]`:
a bare degree in the undirected case, the `{'in_degree': ..., 'out_degree': ...}`
dict in the directed case. -/
inductive DegreeInfo where
  | undirected (degree : Int)
  | directed (in_degree : Int) (out_degree : Int)
deriving Repr, DecidableEq

/-- `matrix[j]`, total because every caller stays in range. -/
def nthRow (matrix : List (List Int)) (j : Nat) : List Int :=
  (matrix.get? j).getD []

/-- `matrix[j][i]`, total because every caller stays in range. -/
def nthInt (row : List Int) (i : Nat) : Int :=
  (row.get? i).getD 0

/-- Column sum `sum(matrix[j][i] for j in range(num_nodes))`. -/
def colSum (matrix : List (List Int)) (n : Nat) (i : Nat) : Int :=
  ((List.range n).map (fun j => nthInt (nthRow matrix j) i)).sum

/-- `calculate_degrees(matrix, directed)`: re-validates the matrix, then
fills the insertion-ordered `degrees` dict for `i in range(num_nodes)` —
row sum in the undirected case, column sum as in-degree and row sum as
out-degree in the directed case.  The two interior catch-alls of the
source are unreachable (pure arithmetic on a validated matrix raises
nothing), so they are not modelled. -/
def calculate_degrees (matrix : List (List Int)) (directed : Bool) :
    Except GErr (List (Nat × DegreeInfo)) :=
  match validate_matrix matrix with
  | some e => .error e
  | none =>
    let num_nodes := matrix.length
    if directed then
      .ok ((List.range num_nodes).map (fun i =>
        (i, .directed (colSum matrix num_nodes i) (nthRow matrix i).sum)))
    else
      .ok ((List.range num_nodes).map (fun i =>
        (i, .undirected (nthRow matrix i).sum)))

/-! ## Adjacency-list graph ADT (`src/core/graph_tad.py`) -/

/-- The `adj_list` attribute of `GraphTAD`: a Python dict from node identity
to neighbor list, modelled as an insertion-ordered association list. -/
abbrev AdjList := List (Ident × List Ident)

/-- `list(self.adj_list.keys())` in insertion order. -/
def keys (g : AdjList) : List Ident := g.map (fun p => p.1)

/-- `self.adj_list[node]` (looked up on the first matching key; Python dict
keys are unique).  Returns `[]` on a missing key: every source call site
looks up a key it has just checked or created, so `KeyError` is unreachable. -/
def lookupList : AdjList → Ident → List Ident
  | [], _ => []
  | (k, l) :: rest, n => if k = n then l else lookupList rest n

/-- `self.adj_list[n].append(x)`: replace the first entry keyed `n` by the
same entry with `x` appended to its list; no-op when `n` is absent. -/
def appendNeighbor : AdjList → Ident → Ident → AdjList
  | [], _, _ => []
  | (k, l) :: rest, n, x =>
    if k = n then (k, l ++ [x]) :: rest
    else (k, l) :: appendNeighbor rest n x

/-- `_validate_node(node, check_exists)`: `NodeError` when the node is
`None`, when `str(node).strip()` is empty, or (with `check_exists`) when it
is not a key of `adj_list`; the `context` dict passed at each call site
carries no `last_error` entry, hence `none` in that field.  The source's
final catch-all (wrapping a non-`NodeError` exception) is unreachable:
the checks raise nothing else. -/
def validate_node (g : AdjList) (node : Ident) (check_exists : Bool) : Option GErr :=
  match node with
  | none => some (.nodeErr "Node cannot be None" none none)
  | some s =>
    if pyIsBlank s then some (.nodeErr "Node ID cannot be empty" none none)
    else if check_exists ∧ node ∉ keys g then
      some (.nodeErr "Node does not exist" (some (strIdent node)) none)
    else none

/-- An identity passes `_validate_node`'s unconditional checks: it is not
`None` and `str(node).strip()` is non-empty. -/
def validIdent (node : Ident) : Bool :=
  match node with
  | none => false
  | some s => !(pyIsBlank s)

/-- One iteration of `add_node`'s `while` body: validate, raise
`NodeError("Node already exists", ...)` on a duplicate, otherwise insert
`adj_list[node] = []` and return.  The state is unchanged on every raising
path (both raises precede the insertion). -/
def add_node_attempt (g : AdjList) (node : Ident) : AdjList × Option GErr :=
  match validate_node g node false with
  | some e => (g, some e)
  | none =>
    if node ∈ keys g then
      (g, some (.nodeErr "Node already exists" (some (strIdent node)) none))
    else
      (g ++ [(node, [])], none)

/-- The `while retries < MAX_RETRIES` loop of `add_node`, with the
remaining retry budget as fuel: a successful attempt returns; a failed one
records `last_error` and retries; an exhausted budget raises
`NodeError(f"Failed to add node after 3 attempts", str(node), {"last_error": ...})`
when a `last_error` was recorded (with the loop never entered — impossible
at `MAX_RETRIES = 3` — the source would return `None` silently). -/
def add_node_loop (node : Ident) : Nat → AdjList → Option GErr → AdjList × Option GErr
  | 0, g, last_error =>
    (g, last_error.map (fun e =>
      .nodeErr "Failed to add node after 3 attempts" (some (strIdent node)) (some e)))
  | n + 1, g, _ =>
    match add_node_attempt g node with
    | (g1, none) => (g1, none)
    | (g1, some e) => add_node_loop node n g1 (some e)

/-- `MAX_RETRIES = 3`. -/
def MAX_RETRIES : Nat := 3

/-- `add_node(node)`: the retry loop started with a full budget and no
recorded error. -/
def add_node (g : AdjList) (node : Ident) : AdjList × Option GErr :=
  add_node_loop node MAX_RETRIES g none

/-- `add_edge(from_node, to_node, bidirectional)`: validate both endpoints,
reject self-loops with `EdgeError("Self loops are not allowed", ...)`,
auto-create absent endpoints via `add_node`, then append each direction's
neighbor entry unless already present.  Each raising path returns the state
current at the raise; the trailing catch-all (wrapping a non-domain
exception as `EdgeError`) is unreachable and not modelled. -/
def add_edge (g : AdjList) (from_node to_node : Ident) (bidirectional : Bool) :
    AdjList × Option GErr :=
  match validate_node g from_node false with
  | some e => (g, some e)
  | none =>
  match validate_node g to_node false with
  | some e => (g, some e)
  | none =>
  if from_node = to_node then
    (g, some (.edgeErr "Self loops are not allowed"
      (strIdent from_node) (strIdent to_node) bidirectional))
  else
    match (if from_node ∈ keys g then (g, none) else add_node g from_node) with
    | (g1, some e) => (g1, some e)
    | (g1, none) =>
    match (if to_node ∈ keys g1 then (g1, none) else add_node g1 to_node) with
    | (g2, some e) => (g2, some e)
    | (g2, none) =>
      let g3 := if to_node ∈ lookupList g2 from_node then g2
                else appendNeighbor g2 from_node to_node
      let g4 := if bidirectional ∧ from_node ∉ lookupList g3 to_node then
                  appendNeighbor g3 to_node from_node
                else g3
      (g4, none)

/-- `remove_node(node)`: validate with `check_exists=True`, then remove the
node from every neighbor list (`list.remove`, first occurrence) and delete
its own entry. -/
def remove_node (g : AdjList) (node : Ident) : AdjList × Option GErr :=
  match validate_node g node true with
  | some e => (g, some e)
  | none =>
    (((g.map (fun p => (p.1, p.2.erase node))).filter (fun p => ¬ p.1 = node)), none)

/-- `search_node(node)`: `_validate_node` failures are caught and degrade
to `False`; otherwise membership in `adj_list`. -/
def search_node (g : AdjList) (node : Ident) : Bool :=
  match validate_node g node false with
  | some _ => false
  | none => node ∈ keys g

/-- `get_neighbors(node)`: validate with `check_exists=True`, then return a
copy of the neighbor list. -/
def get_neighbors (g : AdjList) (node : Ident) : Except GErr (List Ident) :=
  match validate_node g node true with
  | some e => .error e
  | none => .ok (lookupList g node)

/-- `get_degree(node)`: validate with `check_exists=True`, then the
neighbor-list length. -/
def get_degree (g : AdjList) (node : Ident) : Except GErr Nat :=
  match validate_node g node true with
  | some e => .error e
  | none => .ok (lookupList g node).length

/-- `is_empty()`. -/
def is_empty (g : AdjList) : Bool := g.length = 0

/-- `get_nodes()`: the key set (returned as the insertion-ordered list of
keys; Python returns `set(adj_list.keys())`). -/
def get_nodes (g : AdjList) : List Ident := keys g

/-- A `GraphTAD` operation, for quantifying over call sequences.  Query
operations read the state and return a value without mutating it (in the
source they touch `adj_list` only through lookups, and `get_neighbors`
returns a defensive copy). -/
inductive Op where
  | addNode (a : Ident)
  | addEdge (a b : Ident) (bidirectional : Bool)
  | removeNode (a : Ident)
  | searchNode (a : Ident)
  | getNeighbors (a : Ident)
  | getDegree (a : Ident)
  | isEmpty
  | getNodes

/-- The state after one operation (mutators keep their post-state whether
or not they raised; queries leave the state unchanged). -/
def applyOp (g : AdjList) : Op → AdjList
  | .addNode a => (add_node g a).1
  | .addEdge a b d => (add_edge g a b d).1
  | .removeNode a => (remove_node g a).1
  | .searchNode _ => g
  | .getNeighbors _ => g
  | .getDegree _ => g
  | .isEmpty => g
  | .getNodes => g

/-- The state after a sequence of operations from the empty graph. -/
def runOps (ops : List Op) : AdjList := ops.foldl applyOp []

/-- Every neighbor occurring in some entry's list is itself a key
(no dangling references). -/
def Closed (g : AdjList) : Prop := ∀ p ∈ g, ∀ x ∈ p.2, x ∈ keys g

/-- No entry's list contains its own key (no self-loops). -/
def NoSelfLoop (g : AdjList) : Prop := ∀ p ∈ g, p.1 ∉ p.2

/-- No entry's list contains duplicates. -/
def NbrsNodup (g : AdjList) : Prop := ∀ p ∈ g, p.2.Nodup

/-- Every key passed node validation (auxiliary, maintained alongside the
claimed invariants). -/
def KeysValid (g : AdjList) : Prop := ∀ p ∈ g, validIdent p.1 = true

/-- The adjacency-mapping invariant: the three claimed properties plus two
auxiliary ones (key uniqueness — automatic for a Python dict — and key
validity) that the preservation argument threads through. -/
def GraphInv (g : AdjList) : Prop :=
  Closed g ∧ NoSelfLoop g ∧ NbrsNodup g ∧ (keys g).Nodup ∧ KeysValid g

/-- Whether an error is a `NodeError`. -/
def GErr.isNodeErr : GErr → Bool
  | .nodeErr .. => true
  | _ => false

/-- Whether an error is an `EdgeError`. -/
def GErr.isEdgeErr : GErr → Bool
  | .edgeErr .. => true
  | _ => false

/-- Whether an error is an `InvalidMatrixError`. -/
def GErr.isInvalidMatrixErr : GErr → Bool
  | .invalidMatrixErr .. => true
  | _ => false

/-- Derived form (not in the source): the state after the `for node in
(from_node, to_node): if node not in self.adj_list: self.add_node(node)`
step of `add_edge` for one node, on the path where validation has already
succeeded (there `add_node` cannot fail, and inserts `(n, [])`). -/
def ensureNode (g : AdjList) (n : Ident) : AdjList :=
  if n ∈ keys g then g else g ++ [(n, [])]

/-- Derived form (not in the source): the post-state of a successful
`add_edge(a, b, d)` call — both endpoints ensured, then each direction
appended unless already present. -/
def addEdgeState (g : AdjList) (a b : Ident) (d : Bool) : AdjList :=
  let g2 := ensureNode (ensureNode g a) b
  let g3 := if b ∈ lookupList g2 a then g2 else appendNeighbor g2 a b
  if d ∧ a ∉ lookupList g3 b then appendNeighbor g3 b a else g3

/-! ## Association-list lemmas -/

theorem keys_append (g1 g2 : AdjList) : keys (g1 ++ g2) = keys g1 ++ keys g2 := by
  simp [keys]

theorem lookupList_eq_nil_of_not_mem {g : AdjList} {n : Ident} (h : n ∉ keys g) :
    lookupList g n = [] := by
  induction g with
  | nil => rfl
  | cons p rest ih =>
    simp only [keys, List.map_cons, List.mem_cons] at h
    push_neg at h
    cases p with
    | mk k l =>
      simp only [lookupList]
      rw [if_neg (fun hk => h.1 hk.symm)]
      exact ih (by simpa [keys] using h.2)

theorem lookupList_append_left {g1 : AdjList} {n : Ident} (g2 : AdjList)
    (h : n ∈ keys g1) : lookupList (g1 ++ g2) n = lookupList g1 n := by
  induction g1 with
  | nil => simp [keys] at h
  | cons p rest ih =>
    cases p with
    | mk k l =>
      by_cases hk : k = n
      · simp [lookupList, hk]
      · simp only [keys, List.map_cons, List.mem_cons] at h
        rcases h with h | h
        · exact absurd h.symm hk
        · simp [lookupList, hk, ih (by simpa [keys] using h)]

theorem lookupList_append_right {g1 : AdjList} {n : Ident} (g2 : AdjList)
    (h : n ∉ keys g1) : lookupList (g1 ++ g2) n = lookupList g2 n := by
  induction g1 with
  | nil => rfl
  | cons p rest ih =>
    cases p with
    | mk k l =>
      simp only [keys, List.map_cons, List.mem_cons] at h
      push_neg at h
      simp only [List.cons_append, lookupList]
      rw [if_neg (fun hk => h.1 hk.symm)]
      exact ih (by simpa [keys] using h.2)

theorem lookupList_singleton (n : Ident) (l : List Ident) :
    lookupList [(n, l)] n = l := by
  simp [lookupList]

theorem mem_keys_iff {g : AdjList} {n : Ident} :
    n ∈ keys g ↔ ∃ l, (n, l) ∈ g := by
  constructor
  · intro h
    rcases List.mem_map.mp h with ⟨p, hp, hpn⟩
    exact ⟨p.2, by rwa [show (n, p.2) = p from by rw [← hpn]]⟩
  · rintro ⟨l, hl⟩
    exact List.mem_map.mpr ⟨(n, l), hl, rfl⟩

theorem lookupList_eq_of_mem {g : AdjList} {n : Ident} {l : List Ident}
    (hk : (keys g).Nodup) (h : (n, l) ∈ g) : lookupList g n = l := by
  induction g with
  | nil => simp at h
  | cons p rest ih =>
    cases p with
    | mk k l0 =>
      simp only [keys, List.map_cons, List.nodup_cons] at hk
      rcases List.mem_cons.mp h with h | h
      · rw [show k = n from (Prod.mk.injEq .. ▸ h.symm).1,
          show l0 = l from (Prod.mk.injEq .. ▸ h.symm).2]
        simp [lookupList]
      · have hkn : k ≠ n := by
          intro hkn
          exact hk.1 (by simpa [keys, hkn] using mem_keys_iff.mpr ⟨l, h⟩)
        simp only [lookupList, if_neg hkn]
        exact ih (by simpa [keys] using hk.2) h

theorem mem_of_lookupList {g : AdjList} {n : Ident} {x : Ident}
    (h : x ∈ lookupList g n) : (n, lookupList g n) ∈ g := by
  induction g with
  | nil => simp [lookupList] at h
  | cons p rest ih =>
    cases p with
    | mk k l =>
      by_cases hk : k = n
      · subst hk
        simp_all [lookupList]
      · simp only [lookupList, if_neg hk] at h ⊢
        exact List.mem_cons_of_mem _ (ih h)

theorem keys_appendNeighbor (g : AdjList) (n x : Ident) :
    keys (appendNeighbor g n x) = keys g := by
  induction g with
  | nil => rfl
  | cons p rest ih =>
    cases p with
    | mk k l =>
      by_cases hk : k = n
      · simp [appendNeighbor, hk, keys]
      · simp only [appendNeighbor, if_neg hk, keys, List.map_cons]
        simpa [keys] using ih

theorem lookupList_appendNeighbor_self {g : AdjList} {n : Ident} (x : Ident)
    (h : n ∈ keys g) :
    lookupList (appendNeighbor g n x) n = lookupList g n ++ [x] := by
  induction g with
  | nil => simp [keys] at h
  | cons p rest ih =>
    cases p with
    | mk k l =>
      by_cases hk : k = n
      · simp [appendNeighbor, hk, lookupList]
      · have hn : n ∈ keys rest := by
          simp only [keys, List.map_cons, List.mem_cons] at h
          rcases h with h | h
          · exact absurd h.symm hk
          · simpa [keys] using h
        simp [appendNeighbor, hk, lookupList, ih hn]

theorem lookupList_appendNeighbor_ne {g : AdjList} {n m : Ident} (x : Ident)
    (hmn : m ≠ n) : lookupList (appendNeighbor g n x) m = lookupList g m := by
  induction g with
  | nil => rfl
  | cons p rest ih =>
    cases p with
    | mk k l =>
      by_cases hk : k = n
      · subst hk
        have hkm : ¬ k = m := fun he => hmn he.symm
        simp [appendNeighbor, lookupList, hkm]
      · by_cases hkm : k = m
        · subst hkm
          simp [appendNeighbor, lookupList, hk]
        · simp [appendNeighbor, hk, lookupList, hkm, ih]

theorem mem_appendNeighbor {g : AdjList} {n x : Ident} {p : Ident × List Ident} :
    p ∈ appendNeighbor g n x →
    p ∈ g ∨ ∃ l, (n, l) ∈ g ∧ p = (n, l ++ [x]) := by
  induction g with
  | nil => intro h; simp [appendNeighbor] at h
  | cons q rest ih =>
    cases q with
    | mk k l =>
      intro h
      by_cases hk : k = n
      · subst hk
        simp only [appendNeighbor, if_true, eq_self_iff_true, List.mem_cons] at h
        rcases h with h | h
        · exact Or.inr ⟨l, List.mem_cons_self _ _, h⟩
        · exact Or.inl (List.mem_cons_of_mem _ h)
      · simp only [appendNeighbor, if_neg hk, List.mem_cons] at h
        rcases h with h | h
        · exact Or.inl (List.mem_cons.mpr (Or.inl h))
        · rcases ih h with h | ⟨l1, hl1, hp⟩
          · exact Or.inl (List.mem_cons_of_mem _ h)
          · exact Or.inr ⟨l1, List.mem_cons_of_mem _ hl1, hp⟩

/-! ## `_validate_node` and `add_node` characterizations -/

theorem validate_node_false_none_iff (g : AdjList) (n : Ident) :
    validate_node g n false = none ↔ validIdent n = true := by
  cases n with
  | none => simp [validate_node, validIdent]
  | some s =>
    by_cases h : pyIsBlank s = true <;> simp [validate_node, validIdent, h]

theorem validate_node_true_none_iff (g : AdjList) (n : Ident) :
    validate_node g n true = none ↔ (validIdent n = true ∧ n ∈ keys g) := by
  cases n with
  | none => simp [validate_node, validIdent]
  | some s =>
    by_cases h : pyIsBlank s = true
    · simp [validate_node, validIdent, h]
    · by_cases hm : (some s : Ident) ∈ keys g <;>
        simp [validate_node, validIdent, h, hm]

theorem validate_node_isNodeErr {g : AdjList} {n : Ident} {ce : Bool} {e : GErr}
    (h : validate_node g n ce = some e) : e.isNodeErr = true := by
  cases n with
  | none =>
    simp only [validate_node] at h
    rw [← Option.some_inj.mp h]
    rfl
  | some s =>
    by_cases ht : pyIsBlank s = true
    · simp only [validate_node, if_pos ht] at h
      rw [← Option.some_inj.mp h]
      rfl
    · by_cases hm : (ce : Prop) ∧ (some s : Ident) ∉ keys g
      · simp only [validate_node, if_neg ht, if_pos hm] at h
        rw [← Option.some_inj.mp h]
        rfl
      · simp [validate_node, ht, hm] at h

theorem add_node_attempt_success {g : AdjList} {n : Ident}
    (hv : validIdent n = true) (hm : n ∉ keys g) :
    add_node_attempt g n = (g ++ [(n, [])], none) := by
  have h1 : validate_node g n false = none := (validate_node_false_none_iff g n).mpr hv
  simp [add_node_attempt, h1, hm]

theorem add_node_of_attempt_fail {g : AdjList} {n : Ident} {e : GErr}
    (h : add_node_attempt g n = (g, some e)) :
    add_node g n =
      (g, some (.nodeErr "Failed to add node after 3 attempts" (some (strIdent n)) (some e))) := by
  simp [add_node, MAX_RETRIES, add_node_loop, h]

theorem add_node_success {g : AdjList} {n : Ident}
    (hv : validIdent n = true) (hm : n ∉ keys g) :
    add_node g n = (g ++ [(n, [])], none) := by
  simp [add_node, MAX_RETRIES, add_node_loop, add_node_attempt_success hv hm]

theorem add_node_duplicate {g : AdjList} {n : Ident}
    (hv : validIdent n = true) (hm : n ∈ keys g) :
    add_node g n =
      (g, some (.nodeErr "Failed to add node after 3 attempts" (some (strIdent n))
        (some (.nodeErr "Node already exists" (some (strIdent n)) none)))) := by
  apply add_node_of_attempt_fail
  have h1 : validate_node g n false = none := (validate_node_false_none_iff g n).mpr hv
  simp [add_node_attempt, h1, hm]

theorem add_node_invalid {g : AdjList} {n : Ident} (hv : validIdent n = false) :
    ∃ e0, validate_node g n false = some e0 ∧ e0.isNodeErr = true ∧
      add_node g n =
        (g, some (.nodeErr "Failed to add node after 3 attempts" (some (strIdent n)) (some e0))) := by
  have hns : validate_node g n false ≠ none := by
    rw [Ne, validate_node_false_none_iff, hv]
    simp
  rcases Option.ne_none_iff_exists.mp hns with ⟨e0, he0⟩
  refine ⟨e0, he0.symm, validate_node_isNodeErr he0.symm, ?_⟩
  apply add_node_of_attempt_fail
  simp [add_node_attempt, ← he0]

theorem add_node_cases (g : AdjList) (n : Ident) :
    ((add_node g n).1 = g ∧ (add_node g n).2.isSome = true) ∨
      (validIdent n = true ∧ n ∉ keys g ∧ add_node g n = (g ++ [(n, [])], none)) := by
  by_cases hv : validIdent n = true
  · by_cases hm : n ∈ keys g
    · exact Or.inl (by rw [add_node_duplicate hv hm]; exact ⟨rfl, rfl⟩)
    · exact Or.inr ⟨hv, hm, add_node_success hv hm⟩
  · rcases add_node_invalid (g := g) (Bool.eq_false_iff.mpr hv) with ⟨e0, _, _, heq⟩
    exact Or.inl (by rw [heq]; exact ⟨rfl, rfl⟩)

theorem add_node_none_iff (g : AdjList) (n : Ident) :
    (add_node g n).2 = none ↔ (validIdent n = true ∧ n ∉ keys g) := by
  rcases add_node_cases g n with ⟨_, hs⟩ | ⟨hv, hm, heq⟩
  · constructor
    · intro h
      rw [h] at hs
      simp at hs
    · intro ⟨hv, hm⟩
      rw [add_node_success hv hm]
  · simp [heq, hv, hm]

theorem add_node_err_isNodeErr (g : AdjList) (n : Ident) :
    (add_node g n).2.all GErr.isNodeErr = true := by
  by_cases hv : validIdent n = true
  · by_cases hm : n ∈ keys g
    · rw [add_node_duplicate hv hm]
      rfl
    · rw [add_node_success hv hm]
      rfl
  · rcases add_node_invalid (g := g) (Bool.eq_false_iff.mpr hv) with ⟨e0, _, _, heq⟩
    rw [heq]
    rfl

theorem add_node_atomic {g : AdjList} {n : Ident}
    (h : (add_node g n).2.isSome = true) : (add_node g n).1 = g := by
  rcases add_node_cases g n with ⟨hg, _⟩ | ⟨_, _, heq⟩
  · exact hg
  · rw [heq] at h
    simp at h

/-! ## `add_edge` characterization -/

theorem keys_ensureNode (g : AdjList) (n : Ident) :
    keys (ensureNode g n) = if n ∈ keys g then keys g else keys g ++ [n] := by
  unfold ensureNode
  by_cases hn : n ∈ keys g
  · simp only [if_pos hn]
  · simp only [if_neg hn, keys_append]
    rfl

theorem mem_keys_ensureNode_self (g : AdjList) (n : Ident) :
    n ∈ keys (ensureNode g n) := by
  rw [keys_ensureNode]
  by_cases hn : n ∈ keys g <;> simp [hn]

theorem mem_keys_ensureNode_of_mem {g : AdjList} {m : Ident} (n : Ident)
    (h : m ∈ keys g) : m ∈ keys (ensureNode g n) := by
  rw [keys_ensureNode]
  by_cases hn : n ∈ keys g <;> simp [hn, h]

theorem lookupList_ensureNode (g : AdjList) (n m : Ident) :
    lookupList (ensureNode g n) m = lookupList g m := by
  unfold ensureNode
  by_cases hn : n ∈ keys g
  · simp [hn]
  · simp only [if_neg hn]
    by_cases hm : m ∈ keys g
    · exact lookupList_append_left _ hm
    · rw [lookupList_append_right _ hm, lookupList_eq_nil_of_not_mem hm]
      by_cases he : n = m <;> simp [lookupList, he]

theorem ensure_step {g : AdjList} {n : Ident} (hv : validIdent n = true) :
    (if n ∈ keys g then (g, none) else add_node g n) =
      (ensureNode g n, (none : Option GErr)) := by
  unfold ensureNode
  by_cases hm : n ∈ keys g
  · simp [hm]
  · simp [hm, add_node_success hv hm]

theorem add_edge_eq_of_valid {a b : Ident} (g : AdjList) (d : Bool)
    (ha : validIdent a = true) (hb : validIdent b = true) (hab : a ≠ b) :
    add_edge g a b d = (addEdgeState g a b d, none) := by
  have hva : validate_node g a false = none := (validate_node_false_none_iff g a).mpr ha
  have hvb : validate_node g b false = none := (validate_node_false_none_iff g b).mpr hb
  unfold add_edge addEdgeState
  rw [hva, hvb]
  simp only [if_neg hab, ensure_step ha, ensure_step hb]

theorem keys_addEdgeState (g : AdjList) (a b : Ident) (d : Bool) :
    keys (addEdgeState g a b d) = keys (ensureNode (ensureNode g a) b) := by
  unfold addEdgeState
  by_cases h3 : b ∈ lookupList (ensureNode (ensureNode g a) b) a
  · simp only [if_pos h3]
    by_cases h4 : d ∧ a ∉ lookupList (ensureNode (ensureNode g a) b) b
    · simp [h4, keys_appendNeighbor]
    · simp [h4]
  · simp only [if_neg h3]
    by_cases h4 : d ∧ a ∉ lookupList (appendNeighbor (ensureNode (ensureNode g a) b) a b) b
    · simp [h4, keys_appendNeighbor]
    · simp [h4, keys_appendNeighbor]

theorem from_mem_keys_addEdgeState (g : AdjList) (a b : Ident) (d : Bool) :
    a ∈ keys (addEdgeState g a b d) := by
  rw [keys_addEdgeState]
  exact mem_keys_ensureNode_of_mem b (mem_keys_ensureNode_self g a)

theorem to_mem_keys_addEdgeState (g : AdjList) (a b : Ident) (d : Bool) :
    b ∈ keys (addEdgeState g a b d) := by
  rw [keys_addEdgeState]
  exact mem_keys_ensureNode_self _ b

theorem lookup_addEdgeState_from {a b : Ident} (g : AdjList) (d : Bool) (hab : a ≠ b) :
    lookupList (addEdgeState g a b d) a =
      (if b ∈ lookupList g a then lookupList g a else lookupList g a ++ [b]) := by
  unfold addEdgeState
  have hg2a : lookupList (ensureNode (ensureNode g a) b) a = lookupList g a := by
    rw [lookupList_ensureNode, lookupList_ensureNode]
  have hma : a ∈ keys (ensureNode (ensureNode g a) b) :=
    mem_keys_ensureNode_of_mem b (mem_keys_ensureNode_self g a)
  by_cases h3 : b ∈ lookupList (ensureNode (ensureNode g a) b) a
  · simp only [if_pos h3]
    rw [hg2a] at h3
    by_cases h4 : d ∧ a ∉ lookupList (ensureNode (ensureNode g a) b) b
    · simp only [if_pos h4]
      rw [lookupList_appendNeighbor_ne _ hab, hg2a, if_pos h3]
    · simp only [if_neg h4]
      rw [hg2a, if_pos h3]
  · simp only [if_neg h3]
    rw [hg2a] at h3
    by_cases h4 : d ∧ a ∉ lookupList (appendNeighbor (ensureNode (ensureNode g a) b) a b) b
    · simp only [if_pos h4]
      rw [lookupList_appendNeighbor_ne _ hab,
        lookupList_appendNeighbor_self b hma, hg2a, if_neg h3]
    · simp only [if_neg h4]
      rw [lookupList_appendNeighbor_self b hma, hg2a, if_neg h3]

theorem lookup_addEdgeState_to {a b : Ident} (g : AdjList) (d : Bool) (hab : a ≠ b) :
    lookupList (addEdgeState g a b d) b =
      (if d ∧ a ∉ lookupList g b then lookupList g b ++ [a] else lookupList g b) := by
  unfold addEdgeState
  have hba : b ≠ a := fun he => hab he.symm
  have hg2b : lookupList (ensureNode (ensureNode g a) b) b = lookupList g b := by
    rw [lookupList_ensureNode, lookupList_ensureNode]
  have hmb : b ∈ keys (ensureNode (ensureNode g a) b) :=
    mem_keys_ensureNode_self _ b
  by_cases h3 : b ∈ lookupList (ensureNode (ensureNode g a) b) a
  · simp only [if_pos h3]
    by_cases h4 : d ∧ a ∉ lookupList (ensureNode (ensureNode g a) b) b
    · simp only [if_pos h4]
      rw [lookupList_appendNeighbor_self a hmb, hg2b]
      rw [hg2b] at h4
      rw [if_pos h4]
    · simp only [if_neg h4]
      rw [hg2b] at h4
      rw [hg2b, if_neg h4]
  · simp only [if_neg h3]
    have hg3b : lookupList (appendNeighbor (ensureNode (ensureNode g a) b) a b) b =
        lookupList g b := by
      rw [lookupList_appendNeighbor_ne _ hba, hg2b]
    have hmb3 : b ∈ keys (appendNeighbor (ensureNode (ensureNode g a) b) a b) := by
      rw [keys_appendNeighbor]
      exact hmb
    by_cases h4 : d ∧ a ∉ lookupList (appendNeighbor (ensureNode (ensureNode g a) b) a b) b
    · simp only [if_pos h4]
      rw [lookupList_appendNeighbor_self a hmb3, hg3b]
      rw [hg3b] at h4
      rw [if_pos h4]
    · simp only [if_neg h4]
      rw [hg3b] at h4
      rw [hg3b, if_neg h4]

/-! ## Invariant preservation -/

theorem graphInv_nil : GraphInv [] := by
  refine ⟨?_, ?_, ?_, ?_, ?_⟩ <;> simp [Closed, NoSelfLoop, NbrsNodup, KeysValid, keys]

theorem graphInv_addEntry {g : AdjList} {a : Ident} (h : GraphInv g)
    (hv : validIdent a = true) (hm : a ∉ keys g) : GraphInv (g ++ [(a, [])]) := by
  obtain ⟨hc, hs, hd, hk, hkv⟩ := h
  refine ⟨?_, ?_, ?_, ?_, ?_⟩
  · intro p hp x hx
    rw [keys_append]
    rcases List.mem_append.mp hp with hp | hp
    · exact List.mem_append.mpr (Or.inl (hc p hp x hx))
    · rw [List.mem_singleton.mp hp] at hx
      simp at hx
  · intro p hp
    rcases List.mem_append.mp hp with hp | hp
    · exact hs p hp
    · rw [List.mem_singleton.mp hp]
      simp
  · intro p hp
    rcases List.mem_append.mp hp with hp | hp
    · exact hd p hp
    · rw [List.mem_singleton.mp hp]
      simp
  · rw [keys_append]
    refine List.Nodup.append hk (List.nodup_singleton a) ?_
    intro x hx hxa
    rw [show keys [(a, [])] = [a] from rfl, List.mem_singleton] at hxa
    exact hm (hxa ▸ hx)
  · intro p hp
    rcases List.mem_append.mp hp with hp | hp
    · exact hkv p hp
    · rw [List.mem_singleton.mp hp]
      exact hv

theorem graphInv_ensureNode {g : AdjList} {n : Ident} (h : GraphInv g)
    (hv : validIdent n = true) : GraphInv (ensureNode g n) := by
  unfold ensureNode
  by_cases hm : n ∈ keys g
  · simpa [hm] using h
  · simpa [hm] using graphInv_addEntry h hv hm

theorem graphInv_appendNeighbor {g : AdjList} {n x : Ident} (h : GraphInv g)
    (hx : x ∈ keys g) (hnx : n ≠ x) (habs : x ∉ lookupList g n) :
    GraphInv (appendNeighbor g n x) := by
  obtain ⟨hc, hs, hd, hk, hkv⟩ := h
  refine ⟨?_, ?_, ?_, ?_, ?_⟩
  · intro p hp y hy
    rw [keys_appendNeighbor]
    rcases mem_appendNeighbor hp with hp | ⟨l, hl, hpe⟩
    · exact hc p hp y hy
    · rw [hpe] at hy
      rcases List.mem_append.mp hy with hy | hy
      · exact hc (n, l) hl y hy
      · rw [List.mem_singleton.mp hy]
        exact hx
  · intro p hp
    rcases mem_appendNeighbor hp with hp | ⟨l, hl, hpe⟩
    · exact hs p hp
    · rw [hpe]
      intro hmem
      rcases List.mem_append.mp hmem with hmem | hmem
      · exact hs (n, l) hl hmem
      · exact hnx (List.mem_singleton.mp hmem)
  · intro p hp
    rcases mem_appendNeighbor hp with hp | ⟨l, hl, hpe⟩
    · exact hd p hp
    · rw [hpe]
      have hxl : x ∉ l := by
        rw [← lookupList_eq_of_mem hk hl]
        exact habs
      simp only [List.nodup_append, List.nodup_singleton]
      exact ⟨hd (n, l) hl, by simp, by
        intro y hy hyx
        rw [List.mem_singleton.mp hyx] at hy
        exact hxl hy⟩
  · rw [keys_appendNeighbor]
    exact hk
  · intro p hp
    rcases mem_appendNeighbor hp with hp | ⟨l, hl, hpe⟩
    · exact hkv p hp
    · rw [hpe]
      exact hkv (n, l) hl

theorem graphInv_addEdgeState {g : AdjList} {a b : Ident} (d : Bool) (h : GraphInv g)
    (ha : validIdent a = true) (hb : validIdent b = true) (hab : a ≠ b) :
    GraphInv (addEdgeState g a b d) := by
  have h2 : GraphInv (ensureNode (ensureNode g a) b) :=
    graphInv_ensureNode (graphInv_ensureNode h ha) hb
  have hma : a ∈ keys (ensureNode (ensureNode g a) b) :=
    mem_keys_ensureNode_of_mem b (mem_keys_ensureNode_self g a)
  have hmb : b ∈ keys (ensureNode (ensureNode g a) b) :=
    mem_keys_ensureNode_self _ b
  unfold addEdgeState
  by_cases h3 : b ∈ lookupList (ensureNode (ensureNode g a) b) a
  · simp only [if_pos h3]
    by_cases h4 : d ∧ a ∉ lookupList (ensureNode (ensureNode g a) b) b
    · simp only [if_pos h4]
      exact graphInv_appendNeighbor h2 hma (fun he => hab he.symm) h4.2
    · simp only [if_neg h4]
      exact h2
  · simp only [if_neg h3]
    have h3inv : GraphInv (appendNeighbor (ensureNode (ensureNode g a) b) a b) :=
      graphInv_appendNeighbor h2 hmb hab h3
    by_cases h4 : d ∧ a ∉ lookupList (appendNeighbor (ensureNode (ensureNode g a) b) a b) b
    · simp only [if_pos h4]
      refine graphInv_appendNeighbor h3inv ?_ (fun he => hab he.symm) h4.2
      rw [keys_appendNeighbor]
      exact hma
    · simp only [if_neg h4]
      exact h3inv

theorem add_edge_cases (g : AdjList) (a b : Ident) (d : Bool) :
    (add_edge g a b d).1 = g ∨
      (validIdent a = true ∧ validIdent b = true ∧ a ≠ b ∧
        add_edge g a b d = (addEdgeState g a b d, none)) := by
  by_cases ha : validIdent a = true
  · have hva : validate_node g a false = none := (validate_node_false_none_iff g a).mpr ha
    by_cases hb : validIdent b = true
    · have hvb : validate_node g b false = none := (validate_node_false_none_iff g b).mpr hb
      by_cases hab : a = b
      · left
        simp [add_edge, hva, hvb, hab]
      · exact Or.inr ⟨ha, hb, hab, add_edge_eq_of_valid g d ha hb hab⟩
    · left
      cases heq : validate_node g b false with
      | none => exact absurd ((validate_node_false_none_iff g b).mp heq) hb
      | some e => simp [add_edge, hva, heq]
  · left
    cases heq : validate_node g a false with
    | none => exact absurd ((validate_node_false_none_iff g a).mp heq) ha
    | some e => simp [add_edge, heq]

theorem graphInv_add_node {g : AdjList} (a : Ident) (h : GraphInv g) :
    GraphInv (add_node g a).1 := by
  rcases add_node_cases g a with ⟨hg, _⟩ | ⟨hv, hm, heq⟩
  · rw [hg]
    exact h
  · rw [heq]
    exact graphInv_addEntry h hv hm

theorem graphInv_add_edge {g : AdjList} (a b : Ident) (d : Bool) (h : GraphInv g) :
    GraphInv (add_edge g a b d).1 := by
  rcases add_edge_cases g a b d with hg | ⟨ha, hb, hab, heq⟩
  · rw [hg]
    exact h
  · rw [heq]
    exact graphInv_addEdgeState d h ha hb hab

/-! ## `remove_node` characterization -/

theorem remove_node_success {g : AdjList} {node : Ident}
    (hv : validIdent node = true) (hm : node ∈ keys g) :
    remove_node g node =
      ((g.map (fun p => (p.1, p.2.erase node))).filter (fun p => ¬ p.1 = node), none) := by
  have h1 : validate_node g node true = none :=
    (validate_node_true_none_iff g node).mpr ⟨hv, hm⟩
  simp [remove_node, h1]

theorem remove_node_fail {g : AdjList} {node : Ident}
    (h : ¬(validIdent node = true ∧ node ∈ keys g)) :
    (remove_node g node).1 = g ∧ (remove_node g node).2.isSome = true := by
  cases heq : validate_node g node true with
  | none => exact absurd ((validate_node_true_none_iff g node).mp heq) h
  | some e => simp [remove_node, heq]

theorem remove_node_err_isNodeErr (g : AdjList) (node : Ident) :
    (remove_node g node).2.all GErr.isNodeErr = true := by
  cases heq : validate_node g node true with
  | none => simp [remove_node, heq]
  | some e => simp [remove_node, heq, validate_node_isNodeErr heq]

theorem mem_remove_result {g : AdjList} {node : Ident} {p : Ident × List Ident} :
    p ∈ (g.map (fun q => (q.1, q.2.erase node))).filter (fun q => ¬ q.1 = node) ↔
      ∃ q ∈ g, p = (q.1, q.2.erase node) ∧ ¬ q.1 = node := by
  constructor
  · intro h
    obtain ⟨hmem, hpred⟩ := List.mem_filter.mp h
    obtain ⟨q, hq, hqe⟩ := List.mem_map.mp hmem
    refine ⟨q, hq, hqe.symm, ?_⟩
    have hp1 := of_decide_eq_true hpred
    intro hq1
    apply hp1
    rw [← hqe]
    exact hq1
  · rintro ⟨q, hq, hpe, hqn⟩
    refine List.mem_filter.mpr ⟨List.mem_map.mpr ⟨q, hq, hpe.symm⟩, ?_⟩
    rw [hpe]
    exact decide_eq_true hqn

theorem mem_keys_remove_result {g : AdjList} {node m : Ident} :
    m ∈ keys ((g.map (fun q => (q.1, q.2.erase node))).filter (fun q => ¬ q.1 = node)) ↔
      m ∈ keys g ∧ ¬ m = node := by
  constructor
  · intro h
    obtain ⟨p, hp, hpm⟩ := List.mem_map.mp h
    obtain ⟨q, hq, hpe, hqn⟩ := mem_remove_result.mp hp
    constructor
    · rw [← hpm, hpe]
      exact List.mem_map.mpr ⟨q, hq, rfl⟩
    · rw [← hpm, hpe]
      exact hqn
  · rintro ⟨hm, hmn⟩
    obtain ⟨q, hq, hqm⟩ := List.mem_map.mp hm
    refine List.mem_map.mpr ⟨(q.1, q.2.erase node), ?_, hqm⟩
    exact mem_remove_result.mpr ⟨q, hq, rfl, by rw [hqm]; exact hmn⟩

theorem keys_remove_result_nodup {g : AdjList} {node : Ident}
    (hk : (keys g).Nodup) :
    (keys ((g.map (fun q => (q.1, q.2.erase node))).filter (fun q => ¬ q.1 = node))).Nodup := by
  have h1 : ((g.map (fun q => (q.1, q.2.erase node))).filter
      (fun q => ¬ q.1 = node)).Sublist (g.map (fun q => (q.1, q.2.erase node))) :=
    List.filter_sublist _
  have h2 := h1.map (fun p : Ident × List Ident => p.1)
  have h3 : (g.map (fun q => (q.1, q.2.erase node))).map (fun p => p.1) = keys g := by
    simp [keys, List.map_map]
  rw [h3] at h2
  exact hk.sublist h2

theorem graphInv_remove_state {g : AdjList} (node : Ident) (h : GraphInv g) :
    GraphInv ((g.map (fun q => (q.1, q.2.erase node))).filter (fun q => ¬ q.1 = node)) := by
  obtain ⟨hc, hs, hd, hk, hkv⟩ := h
  refine ⟨?_, ?_, ?_, ?_, ?_⟩
  · intro p hp x hx
    obtain ⟨q, hq, hpe, hqn⟩ := mem_remove_result.mp hp
    rw [hpe] at hx
    have hxq : x ∈ q.2 := List.mem_of_mem_erase hx
    have hxn : ¬ x = node := by
      intro hxn
      rw [hxn] at hx
      exact (hd q hq).not_mem_erase hx
    exact mem_keys_remove_result.mpr ⟨hc q hq x hxq, hxn⟩
  · intro p hp
    obtain ⟨q, hq, hpe, hqn⟩ := mem_remove_result.mp hp
    rw [hpe]
    intro hmem
    exact hs q hq (List.mem_of_mem_erase hmem)
  · intro p hp
    obtain ⟨q, hq, hpe, hqn⟩ := mem_remove_result.mp hp
    rw [hpe]
    exact (hd q hq).erase node
  · exact keys_remove_result_nodup hk
  · intro p hp
    obtain ⟨q, hq, hpe, hqn⟩ := mem_remove_result.mp hp
    rw [hpe]
    exact hkv q hq

theorem graphInv_remove_node {g : AdjList} (node : Ident) (h : GraphInv g) :
    GraphInv (remove_node g node).1 := by
  by_cases hok : validIdent node = true ∧ node ∈ keys g
  · rw [remove_node_success hok.1 hok.2]
    exact graphInv_remove_state node h
  · rw [(remove_node_fail hok).1]
    exact h

theorem graphInv_applyOp {g : AdjList} (op : Op) (h : GraphInv g) :
    GraphInv (applyOp g op) := by
  cases op with
  | addNode a => exact graphInv_add_node a h
  | addEdge a b d => exact graphInv_add_edge a b d h
  | removeNode a => exact graphInv_remove_node a h
  | searchNode a => exact h
  | getNeighbors a => exact h
  | getDegree a => exact h
  | isEmpty => exact h
  | getNodes => exact h

theorem graphInv_foldl {g : AdjList} (ops : List Op) (h : GraphInv g) :
    GraphInv (ops.foldl applyOp g) := by
  induction ops generalizing g with
  | nil => exact h
  | cons op rest ih => exact ih (graphInv_applyOp op h)

theorem graphInv_runOps (ops : List Op) : GraphInv (runOps ops) :=
  graphInv_foldl ops graphInv_nil

/-! ## Matrix validation and degree lemmas -/

theorem validate_rows_none {size : Nat} {l : List (List Int)}
    (h : ∀ row ∈ l, row.length = size ∧ ∀ x ∈ row, x = 0 ∨ x = 1) (i : Nat) :
    validate_rows size l i = none := by
  induction l generalizing i with
  | nil => rfl
  | cons row rest ih =>
    obtain ⟨hlen, hcells⟩ := h row (List.mem_cons_self _ _)
    have hall : row.all (fun x => x == 0 || x == 1) = true := by
      rw [List.all_eq_true]
      intro x hx
      rcases hcells x hx with h0 | h1
      · simp [h0]
      · simp [h1]
    simp [validate_rows, hlen, hall, ih (fun r hr => h r (List.mem_cons_of_mem _ hr))]

theorem validate_matrix_none {m : List (List Int)} (hne : m ≠ [])
    (hsq : ∀ row ∈ m, row.length = m.length)
    (hcell : ∀ row ∈ m, ∀ x ∈ row, x = 0 ∨ x = 1) :
    validate_matrix m = none := by
  have hie : m.isEmpty = false := by
    cases m with
    | nil => exact absurd rfl hne
    | cons a l => rfl
  simp only [validate_matrix, hie, Bool.false_eq_true, if_false]
  exact validate_rows_none (fun row hr => ⟨hsq row hr, hcell row hr⟩) 0

theorem map_range_nthRow_const {β : Type} (l : List (List Int)) (h : List Int → β) :
    (List.range l.length).map (fun j => h (nthRow l j)) = l.map h := by
  induction l with
  | nil => rfl
  | cons x xs ih =>
    simp only [List.length_cons, List.range_succ_eq_map, List.map_cons, List.map_map]
    have hcomp : ((fun j => h (nthRow (x :: xs) j)) ∘ Nat.succ) = (fun j => h (nthRow xs j)) := by
      funext j
      rfl
    rw [hcomp, ih]
    rfl

theorem map_range_enumFrom {β : Type} (l : List (List Int)) (f : Nat → List Int → β) (k : Nat) :
    (List.range l.length).map (fun i => f (k + i) (nthRow l i)) =
      (l.enumFrom k).map (fun p => f p.1 p.2) := by
  induction l generalizing k with
  | nil => rfl
  | cons x xs ih =>
    simp only [List.length_cons, List.range_succ_eq_map, List.map_cons, List.map_map,
      List.enumFrom]
    have hcomp : ((fun i => f (k + i) (nthRow (x :: xs) i)) ∘ Nat.succ)
        = (fun i => f ((k + 1) + i) (nthRow xs i)) := by
      funext i
      show f (k + (i + 1)) (nthRow (x :: xs) (i + 1)) = f ((k + 1) + i) (nthRow xs i)
      rw [Nat.add_succ, Nat.succ_add]
      rfl
    rw [hcomp, ih (k + 1)]
    rfl

theorem map_range_enum {β : Type} (l : List (List Int)) (f : Nat → List Int → β) :
    (List.range l.length).map (fun i => f i (nthRow l i)) =
      l.enum.map (fun p => f p.1 p.2) := by
  have h := map_range_enumFrom l f 0
  have hf : (fun i => f (0 + i) (nthRow l i)) = (fun i => f i (nthRow l i)) := by
    funext i
    rw [Nat.zero_add]
  rw [hf] at h
  exact h

/-! ## Claim theorems -/

/-- C1: the claim says that when a file tokenizes into integer rows but the
rows form an invalid matrix, `load_adjacency_matrix` surfaces the
`InvalidMatrixError` from `validate_matrix` unchanged.  The code does not:
`validate_matrix(matrix)` is called inside the outer `try`, whose
`except Exception` clause re-wraps the `InvalidMatrixError` as
`FileReadError(f"Error reading file: {str(e)}", file_path)` — contradicting
the function's own docstring, which lists `InvalidMatrixError` as raised
when the matrix format is invalid.  Witnessed on the non-square file
`"0 1\n1"`: `validate_matrix` produces an `InvalidMatrixError`, yet the
caller receives a `FileReadError` wrapping its rendered text. -/
theorem claim_C1_invalid_matrix_error_rewrapped :
    validate_matrix [[0, 1], [1]] =
      some (.invalidMatrixErr "Row 1 has incorrect length (1 != 2)" (some 2))
    ∧ load_adjacency_matrix "matrix.txt" ["0 1", "1"] =
      .error (.fileReadErr
        "Error reading file: [INVALID_MATRIX] Row 1 has incorrect length (1 != 2) (Matrix size: 2)"
        "matrix.txt")
    ∧ (∀ m s, load_adjacency_matrix "matrix.txt" ["0 1", "1"] ≠
        .error (.invalidMatrixErr m s)) := by
  refine ⟨rfl, rfl, fun m s h => ?_⟩
  rw [show load_adjacency_matrix "matrix.txt" ["0 1", "1"] =
    .error (.fileReadErr
      "Error reading file: [INVALID_MATRIX] Row 1 has incorrect length (1 != 2) (Matrix size: 2)"
      "matrix.txt") from rfl] at h
  exact absurd (Except.error.inj h) (fun he => by cases he)

/-- C2 counterexample: the claim asserts `add_edge(a, a, *)` fails with the
EdgeSelfLoop kind for *every* identity, including blank ones.  For the
empty-string identity, `_validate_node` runs first and raises
`NodeError("Node ID cannot be empty")`, so the failure is a `NodeError`,
not an `EdgeError`. -/
theorem claim_C2_counterexample_blank_identity :
    add_edge [] (some "") (some "") true =
      ([], some (.nodeErr "Node ID cannot be empty" none none))
    ∧ (add_edge [] (some "") (some "") true).2.all GErr.isEdgeErr = false :=
  ⟨rfl, rfl⟩

/-- C2 (amended): for every identity that passes node validation (not
`None`, non-blank after `strip`), and any graph and direction flag,
`add_edge(a, a, bidirectional)` fails with the
`EdgeError("Self loops are not allowed", ...)` (EdgeSelfLoop) and leaves
the state unchanged; blank or `None` identities instead fail earlier in
`_validate_node` with a `NodeError`. -/
theorem claim_C2_self_loop_fails_edge_error (g : AdjList) (a : Ident) (d : Bool)
    (ha : validIdent a = true) :
    add_edge g a a d =
      (g, some (.edgeErr "Self loops are not allowed" (strIdent a) (strIdent a) d)) := by
  have hva : validate_node g a false = none := (validate_node_false_none_iff g a).mpr ha
  simp [add_edge, hva]

/-- C2 witness: the amended self-loop theorem applied at the concrete
identity `"x"` on the empty graph. -/
theorem claim_C2_witness :
    validIdent (some "x") = true ∧
      add_edge [] (some "x") (some "x") true =
        ([], some (.edgeErr "Self loops are not allowed" "x" "x" true)) :=
  ⟨by decide, claim_C2_self_loop_fails_edge_error [] (some "x") true (by decide)⟩

/-- C9: `search_node` is total (it returns a boolean for every identity,
never propagating an error — the model's `search_node` is a total function
into `Bool`, mirroring the source's `try/except NodeError: return False`),
and it returns `true` exactly when the identity is valid (not `None`,
non-blank) and is a key of the adjacency mapping; both invalid and absent
identities yield `false`. -/
theorem claim_C9_search_node_total (g : AdjList) (a : Ident) :
    search_node g a = true ↔ (validIdent a = true ∧ a ∈ keys g) := by
  unfold search_node
  cases heq : validate_node g a false with
  | some e =>
    have hv : ¬ validIdent a = true := by
      intro hv
      rw [(validate_node_false_none_iff g a).mpr hv] at heq
      simp at heq
    simp [hv]
  | none =>
    have hv := (validate_node_false_none_iff g a).mp heq
    simp [hv]

/-- C10: the three mutating operations are atomic on failure — whenever the
returned error is present, the returned adjacency mapping is exactly the
input mapping (in the source, every `raise` in `add_node`, `add_edge` and
`remove_node` occurs before any mutation of `self.adj_list`). -/
theorem claim_C10_mutators_atomic (g : AdjList) (a b c n : Ident) (d : Bool) :
    ((add_node g n).2.isSome = true → (add_node g n).1 = g)
    ∧ ((add_edge g a b d).2.isSome = true → (add_edge g a b d).1 = g)
    ∧ ((remove_node g c).2.isSome = true → (remove_node g c).1 = g) := by
  refine ⟨fun h => add_node_atomic h, fun h => ?_, fun h => ?_⟩
  · rcases add_edge_cases g a b d with hg | ⟨_, _, _, heq⟩
    · exact hg
    · rw [heq] at h
      simp at h
  · by_cases hok : validIdent c = true ∧ c ∈ keys g
    · rw [remove_node_success hok.1 hok.2] at h
      simp at h
    · exact (remove_node_fail hok).1

/-- C10 witness: atomicity applied at concrete failing calls — adding the
`None` node, adding a `None → None` edge, and removing an absent node, all
on the empty graph. -/
theorem claim_C10_witness :
    (add_node ([] : AdjList) none).1 = []
    ∧ (add_edge ([] : AdjList) none none true).1 = []
    ∧ (remove_node ([] : AdjList) (some "x")).1 = [] := by
  obtain ⟨h1, h2, h3⟩ := claim_C10_mutators_atomic [] none none (some "x") none true
  exact ⟨h1 (by decide), h2 (by decide), h3 (by decide)⟩

/-- C3: starting from the empty graph, every sequence of `GraphTAD`
operations (mutators and queries alike) preserves the three
adjacency-mapping invariants: every identity appearing in any neighbor
list is itself a key (no dangling references), no node appears in its own
neighbor list (no self-loops), and no neighbor list contains duplicates. -/
theorem claim_C3_invariants_preserved (ops : List Op) :
    Closed (runOps ops) ∧ NoSelfLoop (runOps ops) ∧ NbrsNodup (runOps ops) := by
  obtain ⟨hc, hs, hd, _, _⟩ := graphInv_runOps ops
  exact ⟨hc, hs, hd⟩

/-- C4: for distinct valid identities, `add_edge(a, b, true)` puts `b` in
`get_neighbors(a)` and `a` in `get_neighbors(b)`; `add_edge(a, b, false)`
puts `b` in `get_neighbors(a)` and — provided the reverse edge was never
added — leaves `a` out of `get_neighbors(b)`; in both cases absent
endpoints are auto-created, so the call returns no error. -/
theorem claim_C4_add_edge_neighbor_semantics (g : AdjList) (a b : Ident)
    (ha : validIdent a = true) (hb : validIdent b = true) (hab : a ≠ b) :
    ((add_edge g a b true).2 = none
      ∧ (∃ l, get_neighbors (add_edge g a b true).1 a = .ok l ∧ b ∈ l)
      ∧ (∃ l, get_neighbors (add_edge g a b true).1 b = .ok l ∧ a ∈ l))
    ∧ ((add_edge g a b false).2 = none
      ∧ (∃ l, get_neighbors (add_edge g a b false).1 a = .ok l ∧ b ∈ l)
      ∧ (a ∉ lookupList g b →
          ∃ l, get_neighbors (add_edge g a b false).1 b = .ok l ∧ a ∉ l)) := by
  have ht := add_edge_eq_of_valid g true ha hb hab
  have hf := add_edge_eq_of_valid g false ha hb hab
  have hgetA : ∀ d : Bool, get_neighbors (addEdgeState g a b d) a =
      .ok (lookupList (addEdgeState g a b d) a) := by
    intro d
    unfold get_neighbors
    rw [(validate_node_true_none_iff _ a).mpr ⟨ha, from_mem_keys_addEdgeState g a b d⟩]
  have hgetB : ∀ d : Bool, get_neighbors (addEdgeState g a b d) b =
      .ok (lookupList (addEdgeState g a b d) b) := by
    intro d
    unfold get_neighbors
    rw [(validate_node_true_none_iff _ b).mpr ⟨hb, to_mem_keys_addEdgeState g a b d⟩]
  refine ⟨⟨by rw [ht], ?_, ?_⟩, by rw [hf], ?_, ?_⟩
  · rw [ht]
    refine ⟨_, hgetA true, ?_⟩
    rw [lookup_addEdgeState_from g true hab]
    by_cases hm : b ∈ lookupList g a
    · rw [if_pos hm]
      exact hm
    · rw [if_neg hm]
      simp
  · rw [ht]
    refine ⟨_, hgetB true, ?_⟩
    rw [lookup_addEdgeState_to g true hab]
    by_cases hm : a ∉ lookupList g b
    · rw [if_pos ⟨rfl, hm⟩]
      simp
    · rw [if_neg (fun hcond => hm hcond.2)]
      push_neg at hm
      exact hm
  · rw [hf]
    refine ⟨_, hgetA false, ?_⟩
    rw [lookup_addEdgeState_from g false hab]
    by_cases hm : b ∈ lookupList g a
    · rw [if_pos hm]
      exact hm
    · rw [if_neg hm]
      simp
  · intro hrev
    rw [hf]
    refine ⟨_, hgetB false, ?_⟩
    rw [lookup_addEdgeState_to g false hab]
    rw [if_neg (fun hcond => Bool.false_ne_true hcond.1)]
    exact hrev

/-- C4 witness: the edge-insertion semantics applied at the concrete
identities `"a"`, `"b"` on the empty graph. -/
theorem claim_C4_witness :
    (add_edge [] (some "a") (some "b") true).2 = none
    ∧ (∃ l, get_neighbors (add_edge [] (some "a") (some "b") true).1 (some "a") = .ok l
        ∧ (some "b" : Ident) ∈ l)
    ∧ (∃ l, get_neighbors (add_edge [] (some "a") (some "b") true).1 (some "b") = .ok l
        ∧ (some "a" : Ident) ∈ l)
    ∧ (add_edge [] (some "a") (some "b") false).2 = none
    ∧ (∃ l, get_neighbors (add_edge [] (some "a") (some "b") false).1 (some "a") = .ok l
        ∧ (some "b" : Ident) ∈ l)
    ∧ (∃ l, get_neighbors (add_edge [] (some "a") (some "b") false).1 (some "b") = .ok l
        ∧ (some "a" : Ident) ∉ l) := by
  have h := claim_C4_add_edge_neighbor_semantics [] (some "a") (some "b")
    (by decide) (by decide) (by decide)
  exact ⟨h.1.1, h.1.2.1, h.1.2.2, h.2.1, h.2.2.1, h.2.2.2 (by decide)⟩

/-- C5: on a valid matrix (non-empty, square, cells in `{0,1}`),
`calculate_degrees` in undirected mode maps each index to the sum of its
row, and in directed mode maps each index to out-degree equal to the row
sum and in-degree equal to the column sum, in index order. -/
theorem claim_C5_calculate_degrees (m : List (List Int)) (hne : m ≠ [])
    (hsq : ∀ row ∈ m, row.length = m.length)
    (hcell : ∀ row ∈ m, ∀ x ∈ row, x = 0 ∨ x = 1) :
    calculate_degrees m false =
      .ok (m.enum.map (fun p => (p.1, DegreeInfo.undirected p.2.sum)))
    ∧ calculate_degrees m true =
      .ok (m.enum.map (fun p =>
        (p.1, DegreeInfo.directed ((m.map (fun row => nthInt row p.1)).sum) p.2.sum))) := by
  have hv := validate_matrix_none hne hsq hcell
  constructor
  · simp only [calculate_degrees, hv, Bool.false_eq_true, if_false]
    rw [map_range_enum m (fun i row => ((i : Nat), DegreeInfo.undirected row.sum))]
  · simp only [calculate_degrees, hv, if_true]
    have hcol : (fun i => ((i : Nat), DegreeInfo.directed (colSum m m.length i) (nthRow m i).sum))
        = (fun i => ((i : Nat),
            DegreeInfo.directed ((m.map (fun row => nthInt row i)).sum) (nthRow m i).sum)) := by
      funext i
      have hc : colSum m m.length i = (m.map (fun row => nthInt row i)).sum := by
        unfold colSum
        rw [map_range_nthRow_const m (fun row => nthInt row i)]
      rw [hc]
    rw [hcol, map_range_enum m (fun i row =>
      ((i : Nat), DegreeInfo.directed ((m.map (fun r => nthInt r i)).sum) row.sum))]

/-- C5 witness: the degree calculation applied at the two matrices named by
the claim — the directed matrix `[[0,1],[0,0]]` yields in/out degrees
`(0,1)` and `(1,0)`, and the undirected matrix `[[0,1],[1,0]]` yields
degree 1 for both nodes. -/
theorem claim_C5_witness :
    calculate_degrees [[0, 1], [0, 0]] true =
      .ok [(0, DegreeInfo.directed 0 1), (1, DegreeInfo.directed 1 0)]
    ∧ calculate_degrees [[0, 1], [1, 0]] false =
      .ok [(0, DegreeInfo.undirected 1), (1, DegreeInfo.undirected 1)] := by
  have h1 := claim_C5_calculate_degrees [[0, 1], [0, 0]]
    (by decide) (by decide) (by decide)
  have h2 := claim_C5_calculate_degrees [[0, 1], [1, 0]]
    (by decide) (by decide) (by decide)
  exact ⟨by rw [h1.2]; rfl, by rw [h2.1]; rfl⟩

/-- C6: `add_node(a)` fails (with a `NodeError`) exactly when `a` is
invalid (`None` or blank) or already present; on success it appends an
entry with an empty neighbor list, after which `search_node(a)` is true
and `get_degree(a)` is 0, and a second `add_node(a)` fails with the
`NodeError` surfaced by the exhausted 3-attempt retry loop, whose
`last_error` context is the `NodeError("Node already exists", ...)`
(the NodeAlreadyExists kind) raised on each attempt. -/
theorem claim_C6_add_node_spec (g : AdjList) (a : Ident) :
    ((add_node g a).2.all GErr.isNodeErr = true)
    ∧ ((add_node g a).2 = none ↔ (validIdent a = true ∧ a ∉ keys g))
    ∧ (validIdent a = true → a ∉ keys g →
        add_node g a = (g ++ [(a, [])], none)
        ∧ search_node (g ++ [(a, [])]) a = true
        ∧ get_degree (g ++ [(a, [])]) a = .ok 0
        ∧ add_node (g ++ [(a, [])]) a =
            (g ++ [(a, [])], some (.nodeErr "Failed to add node after 3 attempts"
              (some (strIdent a))
              (some (.nodeErr "Node already exists" (some (strIdent a)) none))))) := by
  refine ⟨add_node_err_isNodeErr g a, add_node_none_iff g a, fun hv hm => ?_⟩
  have hmem : a ∈ keys (g ++ [(a, [])]) := by
    rw [keys_append]
    simp [keys]
  refine ⟨add_node_success hv hm, ?_, ?_, add_node_duplicate hv hmem⟩
  · unfold search_node
    rw [(validate_node_false_none_iff _ a).mpr hv]
    simp [hmem]
  · unfold get_degree
    rw [(validate_node_true_none_iff _ a).mpr ⟨hv, hmem⟩]
    rw [lookupList_append_right _ hm, lookupList_singleton]
    rfl

/-- C6 witness: the `add_node` specification applied at the identity `"a"`
on the empty graph, including the failing second insertion. -/
theorem claim_C6_witness :
    add_node ([] : AdjList) (some "a") = ([((some "a" : Ident), ([] : List Ident))], none)
    ∧ search_node [((some "a" : Ident), ([] : List Ident))] (some "a") = true
    ∧ get_degree [((some "a" : Ident), ([] : List Ident))] (some "a") = .ok 0
    ∧ (add_node [((some "a" : Ident), ([] : List Ident))] (some "a")).2.isSome = true := by
  have h := (claim_C6_add_node_spec [] (some "a")).2.2 (by decide) (by decide)
  refine ⟨h.1, h.2.1, h.2.2.1, ?_⟩
  have h4 : add_node [((some "a" : Ident), ([] : List Ident))] (some "a") =
      ([((some "a" : Ident), ([] : List Ident))],
        some (.nodeErr "Failed to add node after 3 attempts" (some "a")
          (some (.nodeErr "Node already exists" (some "a") none)))) := h.2.2.2
  rw [h4]
  rfl

/-- C7: `remove_node(a)` fails with a `NodeError` when `a` is not a node;
when `a` is a node (of a graph reachable by the ADT's own operations,
expressed by the adjacency invariant), it succeeds, removing `a` from
every other node's neighbor list and deleting `a`'s own entry, so that
afterwards `search_node(a)` is false and `a` occurs in no neighbor list. -/
theorem claim_C7_remove_node_spec (g : AdjList) (a : Ident) (hinv : GraphInv g) :
    ((remove_node g a).2.all GErr.isNodeErr = true)
    ∧ (a ∉ keys g → (remove_node g a).2.isSome = true)
    ∧ (a ∈ keys g →
        (remove_node g a).2 = none
        ∧ search_node (remove_node g a).1 a = false
        ∧ ∀ p ∈ (remove_node g a).1, ¬ p.1 = a ∧ a ∉ p.2) := by
  refine ⟨remove_node_err_isNodeErr g a, fun hm => ?_, fun hm => ?_⟩
  · exact (remove_node_fail (fun h => hm h.2)).2
  · obtain ⟨l, hl⟩ := mem_keys_iff.mp hm
    have hv : validIdent a = true := hinv.2.2.2.2 (a, l) hl
    rw [remove_node_success hv hm]
    refine ⟨rfl, ?_, ?_⟩
    · unfold search_node
      rw [(validate_node_false_none_iff _ a).mpr hv]
      have hnot : a ∉ keys ((g.map (fun q => (q.1, q.2.erase a))).filter
          (fun q => ¬ q.1 = a)) := by
        intro hmem
        exact (mem_keys_remove_result.mp hmem).2 rfl
      exact decide_eq_false hnot
    · intro p hp
      obtain ⟨q, hq, hpe, hqn⟩ := mem_remove_result.mp hp
      rw [hpe]
      exact ⟨hqn, (hinv.2.2.1 q hq).not_mem_erase⟩

/-- C7 witness: the `remove_node` specification applied on the two-node
graph `a ↔ b`: removing `"a"` succeeds, empties `"b"`'s neighbor list and
makes `search_node "a"` false, while removing the absent `"c"` fails. -/
theorem claim_C7_witness :
    (remove_node [((some "a" : Ident), [some "b"]), ((some "b" : Ident), [some "a"])]
      (some "a")).2 = none
    ∧ search_node (remove_node
        [((some "a" : Ident), [some "b"]), ((some "b" : Ident), [some "a"])]
        (some "a")).1 (some "a") = false
    ∧ (remove_node [((some "a" : Ident), [some "b"]), ((some "b" : Ident), [some "a"])]
        (some "c")).2.isSome = true := by
  have hinv : GraphInv [((some "a" : Ident), [some "b"]), ((some "b" : Ident), [some "a"])] := by
    unfold GraphInv Closed NoSelfLoop NbrsNodup KeysValid keys
    refine ⟨by decide, by decide, by decide, by decide, by decide⟩
  have h1 := (claim_C7_remove_node_spec _ (some "a") hinv).2.2 (by decide)
  have h2 := (claim_C7_remove_node_spec _ (some "c") hinv).2.1 (by decide)
  exact ⟨h1.1, h1.2.1, h2⟩

/-- C8: for distinct valid identities, calling `add_edge(a, b)` twice with
the same direction flag is idempotent: neither call returns an error (the
duplicate insertion is a silent no-op per direction), and afterwards
`get_neighbors(a)` contains `b` exactly once.  The hypothesis that `b`
occurs at most once in `a`'s starting neighbor list holds for every graph
reachable by the ADT's own operations (claim C3's no-duplicates
invariant). -/
theorem claim_C8_add_edge_idempotent (g : AdjList) (a b : Ident) (d : Bool)
    (ha : validIdent a = true) (hb : validIdent b = true) (hab : a ≠ b)
    (hcount : (lookupList g a).count b ≤ 1) :
    (add_edge g a b d).2 = none
    ∧ (add_edge (add_edge g a b d).1 a b d).2 = none
    ∧ ∃ l, get_neighbors (add_edge (add_edge g a b d).1 a b d).1 a = .ok l
        ∧ l.count b = 1 := by
  have h1 := add_edge_eq_of_valid g d ha hb hab
  have h2 : add_edge (add_edge g a b d).1 a b d =
      (addEdgeState (addEdgeState g a b d) a b d, none) := by
    rw [h1]
    exact add_edge_eq_of_valid _ d ha hb hab
  have hmemA : a ∈ keys (addEdgeState (addEdgeState g a b d) a b d) :=
    from_mem_keys_addEdgeState _ a b d
  have hget : get_neighbors (addEdgeState (addEdgeState g a b d) a b d) a =
      .ok (lookupList (addEdgeState (addEdgeState g a b d) a b d) a) := by
    unfold get_neighbors
    rw [(validate_node_true_none_iff _ a).mpr ⟨ha, hmemA⟩]
  refine ⟨by rw [h1], by rw [h2], ?_⟩
  rw [h2]
  refine ⟨_, hget, ?_⟩
  by_cases hm : b ∈ lookupList g a
  · have hinner : lookupList (addEdgeState g a b d) a = lookupList g a := by
      rw [lookup_addEdgeState_from g d hab, if_pos hm]
    rw [lookup_addEdgeState_from (addEdgeState g a b d) d hab, hinner, if_pos hm]
    have hpos : 0 < (lookupList g a).count b := List.count_pos_iff.mpr hm
    omega
  · have hinner : lookupList (addEdgeState g a b d) a = lookupList g a ++ [b] := by
      rw [lookup_addEdgeState_from g d hab, if_neg hm]
    rw [lookup_addEdgeState_from (addEdgeState g a b d) d hab, hinner]
    have hm2 : b ∈ lookupList g a ++ [b] := by simp
    rw [if_pos hm2, List.count_append, List.count_eq_zero.mpr hm]
    simp

/-- C8 witness: idempotent edge insertion applied at the identities `"a"`,
`"b"` on the empty graph with the bidirectional flag. -/
theorem claim_C8_witness :
    (add_edge [] (some "a") (some "b") true).2 = none
    ∧ (add_edge (add_edge [] (some "a") (some "b") true).1 (some "a") (some "b") true).2 = none
    ∧ ∃ l, get_neighbors
        (add_edge (add_edge [] (some "a") (some "b") true).1 (some "a") (some "b") true).1
        (some "a") = .ok l ∧ l.count (some "b") = 1 :=
  claim_C8_add_edge_idempotent [] (some "a") (some "b") true
    (by decide) (by decide) (by decide) (by decide)
